import Mathlib

/-!
Verification of the Longrun NSE announcement monitor
(src/flask_api: stock_webhook.py, simple_nse_monitor.py, nse_monitor.py,
nse_downloader.py), shallowly embedded in Lean.

Pure string manipulation is translated to functions on `String` /
`List Char`; interactions with the network, external processes and the
file system are modelled by passing in the observable outcome of the
environment (exit codes, bytes written at the target path, raised
exceptions) and the size of the file at the target path as an
`Option Nat` (`none` = no file).
-/

namespace Longrun

/-- Characters matched by the regex class `\s` (Python whitespace, ASCII
range). -/
def pySpace (c : Char) : Bool :=
  c = ' ' || c = '\t' || c = '\n' || c = '\r' || c = '\x0b' || c = '\x0c'

/-- Drop the characters satisfying `p` from both ends of the list (Python
`str.strip` for `p = pySpace`, and the regex `^_+|_+$` removal for
`p = isUnderscore`). -/
def stripChars (p : Char → Bool) (l : List Char) : List Char :=
  ((l.dropWhile p).reverse.dropWhile p).reverse

/-- Python `str.strip()` with no argument: remove whitespace from both
ends. -/
def pyStrip (s : String) : String :=
  (stripChars pySpace s.toList).asString

/-- Python `str.endswith(suffix)`. -/
def pyEndsWith (s suffix : String) : Bool :=
  suffix.toList.isSuffixOf s.toList

/-- Substring test on character lists: `pat` occurs contiguously in the list.
Mirrors the Python expression `pat in s` used on strings. -/
def hasSubstring (pat : List Char) : List Char → Bool
  | [] => pat.isEmpty
  | c :: cs => pat.isPrefixOf (c :: cs) || hasSubstring pat cs

/-- String version of `hasSubstring`. -/
def strContainsSub (s pat : String) : Bool :=
  hasSubstring pat.toList s.toList

/-- Observable outcome of one `subprocess.run(curl_cmd, ...)` invocation in
`CompleteNSEMonitor.fetch_rss_with_curl` (stock_webhook.py:53-93) and
`SimpleNSECurlMonitor.fetch_rss_with_curl` (simple_nse_monitor.py:51-103):
either the process completed with an exit code and captured output, or it
timed out, or curl was missing, or some other exception was raised. -/
inductive FetchRun where
  | completed (exitCode : Nat) (stdout : String) (stderr : String)
  | timedOut
  | toolMissing
  | raised
deriving DecidableEq, Repr

/-- Embedding of `fetch_rss_with_curl` (stock_webhook.py:75-93; the identical
acceptance logic is at simple_nse_monitor.py:81-103): the fetched text is
accepted only when the process exited 0, the stripped output is non-empty and
the output contains both the root-element markers; every other outcome
(timeout, missing tool, exception, invalid content) yields `none`. -/
def fetchRssWithCurl (r : FetchRun) : Option String :=
  match r with
  | .completed e out _ =>
    if e = 0 ∧ pyStrip out ≠ "" then
      let content := pyStrip out
      if strContainsSub content "<rss" ∧ strContainsSub content "</rss>" then
        some content
      else
        none
    else
      none
  | .timedOut => none
  | .toolMissing => none
  | .raised => none

/-- One child element of an RSS `<item>` node, as seen by the `for child in
item` loop of `parse_rss_manually`: a tag name and the text
`(child.text or '')`. -/
structure XmlChild where
  tag : String
  text : String
deriving DecidableEq, Repr

/-- The fixed whitelist of child tags extracted per record
(stock_webhook.py:113, simple_nse_monitor.py:123). -/
def rssWhitelist : List String :=
  ["title", "link", "description", "pubDate"]

/-- Python-dict assignment `d[k] = v` on an insertion-ordered association
list: replaces the value of an existing key in place, otherwise appends. -/
def upsert : List (String × String) → String → String → List (String × String)
  | [], k, v => [(k, v)]
  | (k₀, v₀) :: rest, k, v =>
    if k₀ = k then (k, v) :: rest else (k₀, v₀) :: upsert rest k v

/-- The `for child in item` loop of `parse_rss_manually`
(stock_webhook.py:112-114): children are folded into the `item_data` dict,
keeping only whitelisted tags, with the text stripped. -/
def extractFields : List XmlChild → List (String × String) → List (String × String)
  | [], acc => acc
  | ch :: rest, acc =>
    extractFields rest
      (if rssWhitelist.contains ch.tag then upsert acc ch.tag (pyStrip ch.text) else acc)

/-- The item loop of `parse_rss_manually` (stock_webhook.py:107-117): each
`<item>` is a list of children; an item is kept only when its extracted
`title` field is present and non-empty (Python truthiness of
`item_data.get('title')`). -/
def parseItems : List (List XmlChild) → List (List (String × String))
  | [] => []
  | ch :: rest =>
    let d := extractFields ch []
    match d.lookup "title" with
    | some t => if t ≠ "" then d :: parseItems rest else parseItems rest
    | none => parseItems rest

/-- Embedding of `parse_rss_manually` (stock_webhook.py:95-127,
simple_nse_monitor.py:105-137).  The input is the result of structural
parsing (`ET.fromstring`): either an error, or the list of `<item>` elements.
On a structural parse error the function returns the empty sequence together
with the reported error message (the `except` branches print the error and
return `[]`); it never raises. -/
def parseRssManually (doc : Except String (List (List XmlChild))) :
    List (List (String × String)) × Option String :=
  match doc with
  | .error e => ([], some e)
  | .ok items => (parseItems items, none)

/-- One parsed feed record as consumed by the monitor loops. -/
structure FeedItem where
  title : String
  link : String
  description : String
  pubDate : String
deriving DecidableEq, Repr

/-- Characters kept by `re.sub(r'[^a-zA-Z0-9\s]', '', company)`
(stock_webhook.py:133). -/
def keepCompanyChar (c : Char) : Bool :=
  c.isAlphanum || pySpace c

/-- Worker for `re.sub(r'\s+', '_', s)`: each maximal run of whitespace
becomes a single underscore.  The flag records whether the previous character
was whitespace. -/
def collapseAux : Bool → List Char → List Char
  | _, [] => []
  | prevSp, c :: cs =>
    if pySpace c then
      if prevSp then collapseAux true cs else '_' :: collapseAux true cs
    else
      c :: collapseAux false cs

/-- `re.sub(r'\s+', '_', s)` on a character list. -/
def collapseSpaces (l : List Char) : List Char :=
  collapseAux false l

/-- The company-name cleaning of `create_safe_filename`
(stock_webhook.py:132-134): keep alphanumerics and whitespace, strip, then
collapse whitespace runs to single underscores. -/
def cleanCompany (company : String) : List Char :=
  collapseSpaces (stripChars pySpace (company.toList.filter keepCompanyChar))

/-- Characters kept by `re.sub(r'[^a-zA-Z0-9_]', '', s)`
(stock_webhook.py:141). -/
def keepDateChar (c : Char) : Bool :=
  c.isAlphanum || c = '_'

/-- The date cleaning of `create_safe_filename` (stock_webhook.py:137-141):
`pub_date.replace('-','').replace(':','').replace(' ','_')` followed by
removal of everything but alphanumerics and underscores. -/
def cleanDate (pubDate : String) : List Char :=
  ((pubDate.toList.filter (fun c => !(c = '-' || c = ':'))).map
    (fun c => if c = ' ' then '_' else c)).filter keepDateChar

/-- Extension choice of `create_safe_filename` (stock_webhook.py:146-151):
whitelisted suffix of the source URL, defaulting to `.pdf`. -/
def chooseExt (fileUrl : String) : String :=
  if pyEndsWith fileUrl ".pdf" then ".pdf"
  else if pyEndsWith fileUrl ".xml" then ".xml"
  else ".pdf"

/-- Worker for `re.sub(r'_{2,}', '_', s)`: every maximal run of underscores
becomes a single underscore. -/
def squeezeAux : Bool → List Char → List Char
  | _, [] => []
  | prevUs, c :: cs =>
    if c = '_' then
      if prevUs then squeezeAux true cs else '_' :: squeezeAux true cs
    else
      c :: squeezeAux false cs

/-- `re.sub(r'_{2,}', '_', s)` on a character list (a lone underscore is kept
as is, so collapsing every run to one underscore is the same function). -/
def squeezeUnderscores (l : List Char) : List Char :=
  squeezeAux false l

/-- The underscore predicate for the final cleanup regexes. -/
def isUnderscore (c : Char) : Bool := c = '_'

/-- Steps 4-5 cleanup applied to `f"{company_clean}_{date_clean}{file_ext}"`
(stock_webhook.py:154-158): collapse repeated underscores, then trim leading
and trailing underscores. -/
def rawFilename (companyClean dateClean : List Char) (ext : String) : List Char :=
  stripChars isUnderscore
    (squeezeUnderscores (companyClean ++ '_' :: (dateClean ++ ext.toList)))

/-- The two `datetime.now().strftime(...)` strings observable inside
`create_safe_filename`: `dmyhms` is the `'%d%b%Y_%H%M%S'` stamp used when
`pub_date` is empty (stock_webhook.py:143) and `ymdhms` the
`'%Y%m%d_%H%M%S'` stamp of the fallback name (stock_webhook.py:162).
Both consist of ASCII letters, digits and underscores. -/
structure Clock where
  dmyhms : String
  ymdhms : String
deriving DecidableEq, Repr

/-- Well-formedness of the strftime outputs: alphanumerics and underscores
only, which is forced by the two format strings. -/
def clockOk (k : Clock) : Prop :=
  (∀ c ∈ k.dmyhms.toList, keepDateChar c = true) ∧
  (∀ c ∈ k.ymdhms.toList, keepDateChar c = true)

/-- Step 5 of `create_safe_filename` (stock_webhook.py:160-163): when the
cleaned name is empty, equal to the bare extension, or shorter than 5
characters, substitute `NSE_Announcement_{timestamp}{ext}` using the
invocation timestamp. -/
def fallbackStep (f1 : List Char) (ext : String) (k : Clock) : List Char :=
  if f1 = [] ∨ f1 = ext.toList ∨ f1.length < 5 then
    "NSE_Announcement_".toList ++ k.ymdhms.toList ++ ext.toList
  else f1

/-- Step 6 of `create_safe_filename` (stock_webhook.py:165-168): names longer
than 200 characters are cut to their first 190 characters plus the
extension. -/
def truncateStep (f2 : List Char) (ext : String) : List Char :=
  if f2.length > 200 then f2.take 190 ++ ext.toList else f2

/-- The character alphabet every sanitizer output is drawn from:
alphanumerics, underscore, and the dot of the extension.  Used to state the
no-path-separator guarantee. -/
def fileChar (c : Char) : Bool :=
  keepDateChar c || c = '.'

/-- Embedding of `CompleteNSEMonitor.create_safe_filename`
(stock_webhook.py:129-177).  The invocation time enters only through
`clock`.  The Python `try` body is total on string inputs, so the
`except` fallback at lines 172-177 is dead and not modelled. -/
def createSafeFilename (company pubDate fileUrl : String) (k : Clock) : String :=
  (truncateStep
    (fallbackStep
      (rawFilename (cleanCompany company)
        (if pubDate = "" then k.dmyhms.toList else cleanDate pubDate)
        (chooseExt fileUrl))
      (chooseExt fileUrl) k)
    (chooseExt fileUrl)).asString

/-- Dedup key built at stock_webhook.py:393 (and simple_nse_monitor.py:250):
`f"{item.get('title','')}-{item.get('pubDate','')}"` — title and date only. -/
def webhookItemId (it : FeedItem) : String :=
  it.title ++ "-" ++ it.pubDate

/-- Embedding of `IncrementalNSEMonitor.generate_item_id`
(nse_monitor.py:279-281):
`f"{entry.get('title','')}-{entry.get('published','')}-{entry.get('link','')}"`. -/
def generateItemId (e : FeedItem) : String :=
  e.title ++ "-" ++ e.pubDate ++ "-" ++ e.link

/-- Does the link point at a downloadable artifact
(stock_webhook.py:181, 350)? -/
def downloadable (link : String) : Bool :=
  pyEndsWith link ".pdf" || pyEndsWith link ".xml"

/-- Observable outcome of one download-strategy body in
`CompleteNSEMonitor` (stock_webhook.py:217-328): either the transfer call
finished normally, with the process exit code and the file the tool left at
the target path (`some n` = a file of `n` bytes, `none` = no file), or an
exception (including `subprocess.TimeoutExpired`) was raised with the file in
the given state at that moment.  For the requests strategy the exit code is
irrelevant and `0` is used. -/
inductive StratRun where
  | done (exitCode : Nat) (file : Option Nat)
  | exn (file : Option Nat)
deriving DecidableEq, Repr

/-- Embedding of `CompleteNSEMonitor._download_with_requests`
(stock_webhook.py:217-250): a completed transfer returns success with the
written file (even a zero-byte one); any exception removes the target file
and fails. -/
def downloadWithRequests : StratRun → Bool × Option Nat
  | .done _ f => (true, f)
  | .exn _ => (false, none)

/-- Embedding of `CompleteNSEMonitor._download_with_curl`
(stock_webhook.py:252-290): exit code 0 with a non-empty file succeeds; exit
code 0 with an empty file removes it and fails; a non-zero exit code fails
and leaves the file exactly as the tool left it (no cleanup on this branch);
an exception removes any file and fails. -/
def downloadWithCurl : StratRun → Bool × Option Nat
  | .done e f =>
    if e = 0 then
      match f with
      | some n => if 0 < n then (true, some n) else (false, none)
      | none => (false, none)
    else (false, f)
  | .exn _ => (false, none)

/-- Embedding of `CompleteNSEMonitor._download_with_wget`
(stock_webhook.py:292-328), structurally identical to the curl strategy. -/
def downloadWithWget : StratRun → Bool × Option Nat
  | .done e f =>
    if e = 0 then
      match f with
      | some n => if 0 < n then (true, some n) else (false, none)
      | none => (false, none)
    else (false, f)
  | .exn _ => (false, none)

/-- The three strategies of `CompleteNSEMonitor.smart_download_file`, in
their fixed order. -/
inductive Strategy where
  | requests
  | curl
  | wget
deriving DecidableEq, Repr

/-- Result of one `smart_download_file` call: the returned boolean, the file
at the target path afterwards, the strategies invoked in order, and which
strategy produced the success (the strategy name written to
download_log.txt; `none` for the exists short-circuit and for failure). -/
structure DlOutcome where
  success : Bool
  file : Option Nat
  tried : List Strategy
  winner : Option Strategy
deriving DecidableEq, Repr

/-- Embedding of `CompleteNSEMonitor.smart_download_file`
(stock_webhook.py:179-215).  `existing` is the file at the target path when
the call starts (`os.path.exists` is `existing.isSome`); `env` gives the
outcome of each strategy body were it invoked.  Unsupported extensions fail
before any check; an existing file (of any size) short-circuits to success;
otherwise requests, curl, wget are tried in order until one succeeds. -/
def smartDownloadFile (fileUrl : String) (existing : Option Nat)
    (env : Strategy → StratRun) : DlOutcome :=
  if !(downloadable fileUrl) then ⟨false, existing, [], none⟩
  else if existing.isSome then ⟨true, existing, [], none⟩
  else
    let r1 := downloadWithRequests (env .requests)
    if r1.1 then ⟨true, r1.2, [.requests], some .requests⟩
    else
      let r2 := downloadWithCurl (env .curl)
      if r2.1 then ⟨true, r2.2, [.requests, .curl], some .curl⟩
      else
        let r3 := downloadWithWget (env .wget)
        ⟨r3.1, r3.2, [.requests, .curl, .wget],
          if r3.1 then some .wget else none⟩

/-- Observable outcome of the curl body in
`SimpleNSECurlMonitor.download_pdf_with_curl` (simple_nse_monitor.py:153-191):
completed with exit code and file state, timed out, or raised some other
exception, each with the file state at that moment. -/
inductive SimpleRun where
  | done (exitCode : Nat) (file : Option Nat)
  | timeout (file : Option Nat)
  | exn (file : Option Nat)
deriving DecidableEq, Repr

/-- Embedding of `SimpleNSECurlMonitor.download_pdf_with_curl`
(simple_nse_monitor.py:139-191): non-`.pdf` URLs fail immediately; an
existing target file short-circuits to success; exit code 0 with a non-empty
file succeeds, with an empty file removes it and fails; a non-zero exit code
fails leaving the file as is; a timeout removes any file and fails; a generic
exception fails without removing the file. -/
def downloadPdfWithCurl (pdfUrl : String) (existing : Option Nat)
    (run : SimpleRun) : Bool × Option Nat :=
  if !(pyEndsWith pdfUrl ".pdf") then (false, existing)
  else if existing.isSome then (true, existing)
  else
    match run with
    | .done e f =>
      if e = 0 then
        match f with
        | some n => if 0 < n then (true, some n) else (false, none)
        | none => (false, none)
      else (false, f)
    | .timeout _ => (false, none)
    | .exn f => (false, f)

/-- The method names `NSEDownloader.smart_download` dispatches on
(nse_downloader.py:236-245); any other string in the configured list falls
through with `success = False`. -/
def knownMethod (m : String) : Bool :=
  m = "requests" || m = "curl" || m = "wget" || m = "threaded" || m = "browser"

/-- One iteration of the dispatch in `smart_download`: whether the named
method reports success (`outcome` is the behaviour of the five concrete
method bodies; unknown names never succeed). -/
def runMethod (outcome : String → Bool) (m : String) : Bool :=
  if knownMethod m then outcome m else false

/-- Result of one `NSEDownloader.smart_download` call: the returned boolean,
the methods invoked in order, and the succeeding method name. -/
structure SdOut where
  success : Bool
  tried : List String
  winner : Option String
deriving DecidableEq, Repr

/-- Embedding of `NSEDownloader.smart_download` (nse_downloader.py:225-255):
walk the configured method list in order, stopping at the first success;
after each failure the partially written target file is removed
(nse_downloader.py:250-252) before the next method runs. -/
def smartDownload (outcome : String → Bool) : List String → SdOut
  | [] => ⟨false, [], none⟩
  | m :: rest =>
    if runMethod outcome m then ⟨true, [m], some m⟩
    else
      let r := smartDownload outcome rest
      ⟨r.success, m :: r.tried, r.winner⟩

/-- State threaded through one poll cycle: the in-memory seen set, the count
of new records, and the download attempts made, as `(record id, download
result)` pairs in order. -/
structure CycleState where
  seen : List String
  newCount : Nat
  attempts : List (String × Bool)
deriving DecidableEq, Repr

/-- One iteration of the record loop in
`CompleteNSEMonitor.check_announcements` (stock_webhook.py:391-398), whose
shape is shared by `SimpleNSECurlMonitor.check_announcements`
(simple_nse_monitor.py:248-259) and
`IncrementalNSEMonitor.method1_process_only_latest_items`
(nse_monitor.py:76-83): compute the id, skip if already seen, otherwise add
the id to the seen set and then process the announcement, which attempts the
artifact download when downloads are enabled and the link is downloadable.
The download result `dl it` is not consulted when updating the seen set. -/
def processItem (idOf : FeedItem → String) (dl : FeedItem → Bool)
    (dlEnabled : Bool) (st : CycleState) (it : FeedItem) : CycleState :=
  let id := idOf it
  if st.seen.contains id then st
  else
    { seen := id :: st.seen
      newCount := st.newCount + 1
      attempts :=
        if dlEnabled && downloadable it.link then st.attempts ++ [(id, dl it)]
        else st.attempts }

/-- The record loop over the first `max_items` parsed records. -/
def runCycleItems (idOf : FeedItem → String) (dl : FeedItem → Bool)
    (dlEnabled : Bool) (st : CycleState) (items : List FeedItem) : CycleState :=
  items.foldl (processItem idOf dl dlEnabled) st

/-- Embedding of `CompleteNSEMonitor.check_announcements`
(stock_webhook.py:368-409), shared shape with
`SimpleNSECurlMonitor.check_announcements` (simple_nse_monitor.py:225-267).
`fetched` is the fetch result, `parseF` the parser; the second component of
the result records whether `save_cache` ran this cycle: the code calls it
only inside `if new_count > 0:` (stock_webhook.py:405-407,
simple_nse_monitor.py:263-265). -/
def checkAnnouncements (maxItems : Nat) (idOf : FeedItem → String)
    (dl : FeedItem → Bool) (dlEnabled : Bool) (fetched : Option String)
    (parseF : String → List FeedItem) (seen : List String) :
    CycleState × Bool :=
  match fetched with
  | none => (⟨seen, 0, []⟩, false)
  | some content =>
    let items := parseF content
    if items.isEmpty then (⟨seen, 0, []⟩, false)
    else
      let st := runCycleItems idOf dl dlEnabled ⟨seen, 0, []⟩
        (items.take maxItems)
      (st, decide (0 < st.newCount))

/-- Embedding of `IncrementalNSEMonitor.smart_incremental_check`
(nse_monitor.py:264-277): it runs `method1_process_only_latest_items`, which
swallows every exception internally (nse_monitor.py:86-87, returning with the
state unchanged on fetch failure or an empty feed), and then calls
`save_cache()` unconditionally.  `fetchRes` is `none` when the fetch raised
and `some entries` otherwise. -/
def smartIncrementalCheck (maxItems : Nat) (idOf : FeedItem → String)
    (dl : FeedItem → Bool) (dlEnabled : Bool)
    (fetchRes : Option (List FeedItem)) (seen : List String) :
    CycleState × Bool :=
  let st :=
    match fetchRes with
    | none => ⟨seen, 0, []⟩
    | some entries =>
      if entries.isEmpty then ⟨seen, 0, []⟩
      else runCycleItems idOf dl dlEnabled ⟨seen, 0, []⟩
        (entries.take maxItems)
  (st, true)

/-- One persisted retry-queue entry (nse_monitor.py:494-500). -/
structure RetryEntry where
  url : String
  filename : String
  company : String
  date : String
  queuedAt : String
deriving DecidableEq, Repr

/-- The methods defined on `IncrementalNSEMonitor` (nse_monitor.py:11-675),
in source order. -/
def incrementalMonitorMethods : List String :=
  ["__init__", "load_cache", "save_cache",
   "method1_process_only_latest_items", "method2_streaming_xml_parser",
   "method3_time_based_filtering", "method4_http_range_requests",
   "smart_incremental_check", "generate_item_id",
   "download_pdf_with_smart_fallback", "_download_method_requests",
   "_download_method_curl", "_download_method_wget",
   "print_announcement", "print_announcement_from_dict",
   "retry_failed_downloads", "test_rss_fetching",
   "run_incremental_monitoring"]

/-- Embedding of `IncrementalNSEMonitor.retry_failed_downloads`
(nse_monitor.py:536-576).  The replay loop calls
`self.download_pdf(item['url'], item['filename'])` (nse_monitor.py:559);
`downloadPdf` is the value of that attribute lookup: `none` when no such
method exists (the `AttributeError` is caught by the handler at line 575
before the queue file is rewritten at line 570, so the persisted queue is
returned unchanged), `some dl` the hypothetical downloader.  An empty queue
also returns early without rewriting. -/
def retryFailedDownloads (downloadPdf : Option (String → String → Bool))
    (queue : List RetryEntry) : List RetryEntry :=
  match queue with
  | [] => queue
  | _ :: _ =>
    match downloadPdf with
    | none => queue
    | some dl => queue.filter (fun e => !(dl e.url e.filename))

/-! ### Claim C9 — fetched content is accepted only with both root markers -/

/-- Claim C9: a fetch strategy returns content as a successful fetch only
when the content contains the root-element open marker and the close marker;
output lacking either marker, or empty output, is never returned as a
successful fetch (stock_webhook.py:75-86, simple_nse_monitor.py:81-93). -/
theorem fetch_accepts_only_marked_content (r : FetchRun) (c : String)
    (h : fetchRssWithCurl r = some c) :
    strContainsSub c "<rss" = true ∧ strContainsSub c "</rss>" = true ∧ c ≠ "" := by
  cases r with
  | completed e out err =>
    simp only [fetchRssWithCurl] at h
    split at h
    · split at h
      · rename_i h1 h2
        injection h with h'
        subst h'
        exact ⟨h2.1, h2.2, h1.2⟩
      · exact absurd h (by simp)
    · exact absurd h (by simp)
  | timedOut => exact absurd h (by simp [fetchRssWithCurl])
  | toolMissing => exact absurd h (by simp [fetchRssWithCurl])
  | raised => exact absurd h (by simp [fetchRssWithCurl])

/-- Witness for C9: a concrete zero-exit curl run with marked content is
accepted, and the theorem applies to it. -/
theorem fetch_accepts_only_marked_content_witness :
    strContainsSub "<rss></rss>" "<rss" = true ∧
    strContainsSub "<rss></rss>" "</rss>" = true ∧ ("<rss></rss>" : String) ≠ "" :=
  fetch_accepts_only_marked_content (.completed 0 "<rss></rss>" "") "<rss></rss>"
    (by decide)

/-! ### Claim C6 — the dedup key -/

/-- Claim C6, counterexample: in `CompleteNSEMonitor.check_announcements`
(stock_webhook.py:393) the key of a record is `title ++ "-" ++ pubDate`; it is
not a concatenation of title, publishedAt and link (with or without
separators), and two records that differ only in `link` collide, while
`IncrementalNSEMonitor.generate_item_id` keeps them apart. -/
theorem webhook_key_omits_link_cex :
    webhookItemId ⟨"T", "x.pdf", "", "D"⟩ = "T-D" ∧
    webhookItemId ⟨"T", "x.pdf", "", "D"⟩ ≠ "T" ++ "D" ++ "x.pdf" ∧
    webhookItemId ⟨"T", "x.pdf", "", "D"⟩ ≠ "T" ++ "-" ++ "D" ++ "-" ++ "x.pdf" ∧
    webhookItemId ⟨"T", "x.pdf", "", "D"⟩ = webhookItemId ⟨"T", "y.pdf", "", "D"⟩ ∧
    ("x.pdf" : String) ≠ "y.pdf" ∧
    generateItemId ⟨"T", "x.pdf", "", "D"⟩ ≠ generateItemId ⟨"T", "y.pdf", "", "D"⟩ := by
  decide

/-- Claim C6 as amended: `IncrementalNSEMonitor.generate_item_id`
concatenates title, publishedAt and link (separated by hyphens), while the
keys used by `CompleteNSEMonitor.check_announcements` and
`SimpleNSECurlMonitor.check_announcements` concatenate only title and
publishedAt; each key function is stable: repeated parses of the same
underlying record (equal extracted fields) yield the same key. -/
theorem record_id_construction :
    (∀ e : FeedItem, generateItemId e = e.title ++ "-" ++ e.pubDate ++ "-" ++ e.link) ∧
    (∀ e : FeedItem, webhookItemId e = e.title ++ "-" ++ e.pubDate) ∧
    (∀ e f : FeedItem, e.title = f.title → e.pubDate = f.pubDate → e.link = f.link →
      generateItemId e = generateItemId f) ∧
    (∀ e f : FeedItem, e.title = f.title → e.pubDate = f.pubDate →
      webhookItemId e = webhookItemId f) := by
  refine ⟨fun e => rfl, fun e => rfl, ?_, ?_⟩
  · intro e f h1 h2 h3
    simp [generateItemId, h1, h2, h3]
  · intro e f h1 h2
    simp [webhookItemId, h1, h2]

/-- Witness for C6: the stability parts applied to concrete equal-field
records. -/
theorem record_id_construction_witness :
    generateItemId ⟨"T", "x.pdf", "d1", "D"⟩ = generateItemId ⟨"T", "x.pdf", "d2", "D"⟩ ∧
    webhookItemId ⟨"T", "x.pdf", "d1", "D"⟩ = webhookItemId ⟨"T", "y.pdf", "d2", "D"⟩ :=
  ⟨record_id_construction.2.2.1 ⟨"T", "x.pdf", "d1", "D"⟩ ⟨"T", "x.pdf", "d2", "D"⟩
      rfl rfl rfl,
   record_id_construction.2.2.2 ⟨"T", "x.pdf", "d1", "D"⟩ ⟨"T", "y.pdf", "d2", "D"⟩
      rfl rfl⟩

/-! ### Claim C5 — the retry-queue replay is broken in the code -/

/-- Claim C5 (code bug): the replay loop of
`IncrementalNSEMonitor.retry_failed_downloads` calls `self.download_pdf`
(nse_monitor.py:559), but no method of that name exists on the class, so on
any non-empty queue the first iteration raises `AttributeError`, the handler
at nse_monitor.py:575 swallows it, and the persisted queue file is returned
unchanged: no entry is ever retried, removed, or re-added. -/
theorem retry_replay_never_runs :
    ("download_pdf" ∉ incrementalMonitorMethods) ∧
    retryFailedDownloads none
        [⟨"https://e/a.pdf", "A_1.pdf", "ACME", "01-Jan-2025 10:00:00", "t0"⟩] =
      [⟨"https://e/a.pdf", "A_1.pdf", "ACME", "01-Jan-2025 10:00:00", "t0"⟩] :=
  ⟨by decide, rfl⟩

/-! ### Claim C2 — partial files are not cleaned up on every failure path -/

/-- Claim C2 (code bug): when curl (or wget) exits non-zero after writing
bytes to the target path, `CompleteNSEMonitor._download_with_curl`
(stock_webhook.py:269-284) and `_download_with_wget` (stock_webhook.py:307-322)
return failure but leave the partial file in place (only the exit-code-0
empty-file branch and the exception handler delete it), and a later
`smart_download_file` call then short-circuits to success on the non-empty
partial file (stock_webhook.py:188-190). -/
theorem curl_partial_file_retained :
    downloadWithCurl (.done 1 (some 9)) = (false, some 9) ∧
    downloadWithWget (.done 1 (some 9)) = (false, some 9) ∧
    smartDownloadFile "a.pdf" (some 9) (fun _ => .exn none) =
      ⟨true, some 9, [], none⟩ := by
  decide

/-! ### Claim C1 — existing target files short-circuit the download -/

/-- Claim C1, counterexample: a non-empty file already exists at the target
path, yet the download returns Failure, because the unsupported-extension
guard (stock_webhook.py:181-183, simple_nse_monitor.py:141-142) runs before
the exists check. -/
theorem existing_file_cex :
    (smartDownloadFile "x.txt" (some 5) (fun _ => .exn none)).success = false ∧
    (downloadPdfWithCurl "x.xml" (some 5) (.exn none)).1 = false := by
  decide

/-- Claim C1 as amended: for a sourceURL whose extension passes the
strategy's guard (`.pdf`/`.xml` for `smart_download_file`, `.pdf` for
`download_pdf_with_curl`), an existing target file — of any size, the code
checks mere existence — short-circuits to Success with no strategy invoked
and the file untouched; and for every sourceURL whatsoever, an existing
target file is never overwritten or removed by a later download call for the
same name. -/
theorem existing_file_short_circuit :
    (∀ (u : String) (n : Nat) (env : Strategy → StratRun), downloadable u = true →
      smartDownloadFile u (some n) env = ⟨true, some n, [], none⟩) ∧
    (∀ (u : String) (n : Nat) (env : Strategy → StratRun),
      (smartDownloadFile u (some n) env).file = some n) ∧
    (∀ (u : String) (n : Nat) (run : SimpleRun), pyEndsWith u ".pdf" = true →
      downloadPdfWithCurl u (some n) run = (true, some n)) ∧
    (∀ (u : String) (n : Nat) (run : SimpleRun),
      (downloadPdfWithCurl u (some n) run).2 = some n) := by
  refine ⟨?_, ?_, ?_, ?_⟩
  · intro u n env hu
    simp [smartDownloadFile, hu]
  · intro u n env
    by_cases hu : downloadable u = true
    · simp [smartDownloadFile, hu]
    · simp [smartDownloadFile, Bool.eq_false_iff.mpr hu]
  · intro u n run hu
    simp [downloadPdfWithCurl, hu]
  · intro u n run
    by_cases hu : pyEndsWith u ".pdf" = true
    · simp [downloadPdfWithCurl, hu]
    · simp [downloadPdfWithCurl, Bool.eq_false_iff.mpr hu]

/-- Witness for C1: the short-circuit at concrete supported URLs with an
existing target file. -/
theorem existing_file_short_circuit_witness :
    smartDownloadFile "a.pdf" (some 3) (fun _ => .exn none) = ⟨true, some 3, [], none⟩ ∧
    downloadPdfWithCurl "b.pdf" (some 4) (.exn none) = (true, some 4) :=
  ⟨existing_file_short_circuit.1 "a.pdf" 3 (fun _ => .exn none) (by decide),
   existing_file_short_circuit.2.2.1 "b.pdf" 4 (.exn none) (by decide)⟩

/-! ### Claim C4 — fallback ordering and exhaustion -/

/-- Helper for C4: `NSEDownloader.smart_download` stops at the first
succeeding method, having tried exactly the failing ones before it. -/
theorem smartDownload_first_success (outcome : String → Bool) :
    ∀ (pre : List String) (m : String) (post : List String),
      (∀ j ∈ pre, runMethod outcome j = false) → runMethod outcome m = true →
      smartDownload outcome (pre ++ m :: post) = ⟨true, pre ++ [m], some m⟩ := by
  intro pre
  induction pre with
  | nil =>
    intro m post _ hm
    simp [smartDownload, hm]
  | cons a pre ih =>
    intro m post hpre hm
    have ha : runMethod outcome a = false := hpre a (by simp)
    have hrest := ih m post (fun j hj => hpre j (by simp [hj])) hm
    simp [smartDownload, ha, hrest]

/-- Helper for C4: `NSEDownloader.smart_download` returns failure only after
every configured method was tried and failed. -/
theorem smartDownload_exhausts (outcome : String → Bool) :
    ∀ ms : List String, (smartDownload outcome ms).success = false →
      (smartDownload outcome ms).tried = ms ∧
        ∀ m ∈ ms, runMethod outcome m = false := by
  intro ms
  induction ms with
  | nil => intro _; simp [smartDownload]
  | cons a rest ih =>
    intro h
    by_cases ha : runMethod outcome a = true
    · simp [smartDownload, ha] at h
    · have ha' : runMethod outcome a = false := Bool.eq_false_iff.mpr ha
      have hs : smartDownload outcome (a :: rest) =
          ⟨(smartDownload outcome rest).success,
            a :: (smartDownload outcome rest).tried,
            (smartDownload outcome rest).winner⟩ := by
        simp [smartDownload, ha']
      rw [hs] at h
      have := ih h
      rw [hs]
      refine ⟨by simp [this.1], ?_⟩
      intro m hm
      rcases List.mem_cons.mp hm with h1 | h2
      · rw [h1]; exact ha'
      · exact this.2 m h2

/-- Claim C4 as amended: for both orchestrators, when strategy k succeeds and
every strategy before it fails, the result is Success attributed to
strategy k and no later strategy is invoked; `smart_download`
(nse_downloader.py:225-255) over an arbitrary configured method list returns
Failure only after trying every configured method; `smart_download_file`
(stock_webhook.py:179-215), on a supported URL with no existing target file,
behaves the same over its fixed list requests, curl, wget — but on an
unsupported extension it returns Failure immediately with no strategy
invoked (see the counterexample). -/
theorem fallback_ordering :
    (∀ (u : String) (env : Strategy → StratRun), downloadable u = true →
      ((downloadWithRequests (env .requests)).1 = true →
        smartDownloadFile u none env =
          ⟨true, (downloadWithRequests (env .requests)).2, [.requests], some .requests⟩) ∧
      ((downloadWithRequests (env .requests)).1 = false →
        (downloadWithCurl (env .curl)).1 = true →
        smartDownloadFile u none env =
          ⟨true, (downloadWithCurl (env .curl)).2, [.requests, .curl], some .curl⟩) ∧
      ((downloadWithRequests (env .requests)).1 = false →
        (downloadWithCurl (env .curl)).1 = false →
        (downloadWithWget (env .wget)).1 = true →
        smartDownloadFile u none env =
          ⟨true, (downloadWithWget (env .wget)).2, [.requests, .curl, .wget],
            some .wget⟩) ∧
      ((smartDownloadFile u none env).success = false →
        (downloadWithRequests (env .requests)).1 = false ∧
        (downloadWithCurl (env .curl)).1 = false ∧
        (downloadWithWget (env .wget)).1 = false ∧
        (smartDownloadFile u none env).tried = [.requests, .curl, .wget])) ∧
    (∀ (outcome : String → Bool) (pre : List String) (m : String) (post : List String),
      (∀ j ∈ pre, runMethod outcome j = false) → runMethod outcome m = true →
      smartDownload outcome (pre ++ m :: post) = ⟨true, pre ++ [m], some m⟩) ∧
    (∀ (outcome : String → Bool) (ms : List String),
      (smartDownload outcome ms).success = false →
      (smartDownload outcome ms).tried = ms ∧
        ∀ m ∈ ms, runMethod outcome m = false) := by
  refine ⟨?_, smartDownload_first_success, smartDownload_exhausts⟩
  intro u env hu
  refine ⟨?_, ?_, ?_, ?_⟩
  · intro h1
    simp [smartDownloadFile, hu, h1]
  · intro h1 h2
    simp [smartDownloadFile, hu, h1, h2]
  · intro h1 h2 h3
    simp [smartDownloadFile, hu, h1, h2, h3]
  · intro hfail
    by_cases h1 : (downloadWithRequests (env .requests)).1 = true
    · simp [smartDownloadFile, hu, h1] at hfail
    · have h1' := Bool.eq_false_iff.mpr h1
      by_cases h2 : (downloadWithCurl (env .curl)).1 = true
      · simp [smartDownloadFile, hu, h1', h2] at hfail
      · have h2' := Bool.eq_false_iff.mpr h2
        by_cases h3 : (downloadWithWget (env .wget)).1 = true
        · simp [smartDownloadFile, hu, h1', h2', h3] at hfail
        · have h3' := Bool.eq_false_iff.mpr h3
          exact ⟨h1', h2', h3', by simp [smartDownloadFile, hu, h1', h2', h3']⟩

/-- Claim C4, counterexample: with an environment in which every strategy
would succeed, `smart_download_file` on an unsupported extension returns
Failure with no strategy invoked, so Failure does not imply that every
configured strategy was tried and failed. -/
theorem fallback_ordering_cex :
    (smartDownloadFile "x.txt" none (fun _ => .done 0 (some 7))).success = false ∧
    (smartDownloadFile "x.txt" none (fun _ => .done 0 (some 7))).tried = [] ∧
    (downloadWithRequests ((fun _ : Strategy => StratRun.done 0 (some 7)) .requests)).1
      = true := by
  decide

/-- Witness for C4: requests fails, curl succeeds, wget is never invoked; and
the generic orchestrator with the default method list stopping at `wget`. -/
theorem fallback_ordering_witness :
    smartDownloadFile "a.pdf" none
        (fun s => match s with | .requests => .exn none | _ => .done 0 (some 7)) =
      ⟨true, some 7, [.requests, .curl], some .curl⟩ ∧
    smartDownload (fun m => m == "wget") ["requests", "curl", "wget", "threaded"] =
      ⟨true, ["requests", "curl", "wget"], some "wget"⟩ :=
  ⟨((fallback_ordering.1 "a.pdf"
        (fun s => match s with | .requests => .exn none | _ => .done 0 (some 7))
        (by decide)).2.1 (by decide) (by decide)),
   fallback_ordering.2.1 (fun m => m == "wget") ["requests", "curl"] "wget" ["threaded"]
      (by decide) (by decide)⟩

/-! ### Claim C3 — when the cache is persisted -/

/-- Claim C3, counterexample: a cycle in which the fetch returned content and
the parser produced a (non-empty) record list, but every record was already
seen, does not call `save_cache`: stock_webhook.py:405-409 (and
simple_nse_monitor.py:263-267) only save when `new_count > 0`. -/
theorem cache_persisted_cex :
    ((fun _ : String => [(⟨"T", "a.pdf", "", "D"⟩ : FeedItem)]) "<rss>x</rss>") ≠ [] ∧
    (checkAnnouncements 20 webhookItemId (fun _ => true) true (some "<rss>x</rss>")
        (fun _ => [⟨"T", "a.pdf", "", "D"⟩]) ["T-D"]).2 = false := by
  decide

/-- Claim C3 as amended: `CompleteNSEMonitor.check_announcements` and
`SimpleNSECurlMonitor.check_announcements` persist the cache in a cycle
exactly when the fetch and parse succeeded and at least one new record was
found (zero new records means no save, so no timestamp refresh), and never on
fetch failure; `IncrementalNSEMonitor.smart_incremental_check`
(nse_monitor.py:264-277) persists the cache after every check, even when the
fetch failed, because `method1_process_only_latest_items` swallows its own
errors before the unconditional `save_cache()`. -/
theorem cache_persisted_condition :
    (∀ (maxI : Nat) (idOf : FeedItem → String) (dl : FeedItem → Bool) (en : Bool)
        (parseF : String → List FeedItem) (seen : List String) (c : String),
      (checkAnnouncements maxI idOf dl en (some c) parseF seen).2 = true ↔
        parseF c ≠ [] ∧
          0 < (checkAnnouncements maxI idOf dl en (some c) parseF seen).1.newCount) ∧
    (∀ (maxI : Nat) (idOf : FeedItem → String) (dl : FeedItem → Bool) (en : Bool)
        (parseF : String → List FeedItem) (seen : List String),
      (checkAnnouncements maxI idOf dl en none parseF seen).2 = false) ∧
    (∀ (maxI : Nat) (idOf : FeedItem → String) (dl : FeedItem → Bool) (en : Bool)
        (fetchRes : Option (List FeedItem)) (seen : List String),
      (smartIncrementalCheck maxI idOf dl en fetchRes seen).2 = true) := by
  refine ⟨?_, ?_, ?_⟩
  · intro maxI idOf dl en parseF seen c
    simp only [checkAnnouncements]
    by_cases he : (parseF c).isEmpty = true
    · rw [if_pos he]
      have hnil : parseF c = [] := by simpa using he
      simp [hnil]
    · rw [if_neg he]
      have hne : parseF c ≠ [] := by
        intro hh
        exact he (by simp [hh])
      simp [hne]
  · intro maxI idOf dl en parseF seen
    rfl
  · intro maxI idOf dl en fetchRes seen
    rfl

/-! ### Claim C10 — seen before download, never removed, never re-attempted -/

/-- Helper for C10: the seen set computed by the record loop does not depend
on the download results or on whether downloads are enabled. -/
theorem runCycle_seen_indep (idOf : FeedItem → String) (dl dl' : FeedItem → Bool)
    (en en' : Bool) :
    ∀ (items : List FeedItem) (st st' : CycleState), st.seen = st'.seen →
      (runCycleItems idOf dl en st items).seen =
        (runCycleItems idOf dl' en' st' items).seen := by
  intro items
  induction items with
  | nil => intro st st' h; exact h
  | cons it rest ih =>
    intro st st' h
    apply ih
    by_cases hc : idOf it ∈ st'.seen
    · simp [processItem, h, hc]
    · simp [processItem, h, hc]

/-- Helper for C10: every download attempt recorded by the record loop is for
an id that is in the seen set from that point on and was not in the seen set
the cycle started from. -/
theorem runCycle_attempts_mem (idOf : FeedItem → String) (dl : FeedItem → Bool)
    (en : Bool) (seen0 : List String) :
    ∀ (items : List FeedItem) (st : CycleState),
      (∀ s ∈ seen0, s ∈ st.seen) →
      (∀ a ∈ st.attempts, a.1 ∈ st.seen ∧ a.1 ∉ seen0) →
      ∀ a ∈ (runCycleItems idOf dl en st items).attempts,
        a.1 ∈ (runCycleItems idOf dl en st items).seen ∧ a.1 ∉ seen0 := by
  intro items
  induction items with
  | nil => intro st _ hatt; exact hatt
  | cons it rest ih =>
    intro st hseen hatt
    apply ih
    · intro s hs
      by_cases hc : idOf it ∈ st.seen
      · have hstep : processItem idOf dl en st it = st := by
          simp [processItem, hc]
        rw [hstep]
        exact hseen s hs
      · have hstep : (processItem idOf dl en st it).seen = idOf it :: st.seen := by
          simp [processItem, hc]
        rw [hstep]
        exact List.mem_cons_of_mem _ (hseen s hs)
    · intro a ha
      by_cases hc : idOf it ∈ st.seen
      · have hstep : processItem idOf dl en st it = st := by
          simp [processItem, hc]
        rw [hstep] at ha ⊢
        exact hatt a ha
      · by_cases hd : (en && downloadable it.link) = true
        · have hstep : processItem idOf dl en st it =
              ⟨idOf it :: st.seen, st.newCount + 1,
                st.attempts ++ [(idOf it, dl it)]⟩ := by
            simp only [processItem]
            rw [if_neg (by simpa using hc)]
            simp [hd]
          rw [hstep] at ha ⊢
          rcases List.mem_append.mp ha with hold | hnew
          · have h2 := hatt a hold
            exact ⟨List.mem_cons_of_mem _ h2.1, h2.2⟩
          · have ha2 : a = (idOf it, dl it) := by simpa using hnew
            subst ha2
            exact ⟨List.mem_cons_self _ _, fun h0 => hc (hseen _ h0)⟩
        · have hstep : processItem idOf dl en st it =
              ⟨idOf it :: st.seen, st.newCount + 1, st.attempts⟩ := by
            simp only [processItem]
            rw [if_neg (by simpa using hc)]
            simp [hd]
          rw [hstep] at ha ⊢
          have h2 := hatt a ha
          exact ⟨List.mem_cons_of_mem _ h2.1, h2.2⟩

/-- Claim C10: in the record loop a record's id is added to the in-memory
seen set in the same step that attempts its artifact download, before the
download result is consulted; the seen set never depends on download results
(a failed download never removes the id); every attempted id was not in the
seen set at the start of the cycle and is in the seen set afterwards — so a
record whose download failed is never re-attempted by a later cycle through
the feed-processing path (stock_webhook.py:391-398, nse_monitor.py:76-84). -/
theorem seen_added_before_download :
    (∀ (idOf : FeedItem → String) (dl dl' : FeedItem → Bool) (en en' : Bool)
        (st : CycleState) (it : FeedItem),
      (processItem idOf dl en st it).seen = (processItem idOf dl' en' st it).seen) ∧
    (∀ (idOf : FeedItem → String) (dl dl' : FeedItem → Bool) (en en' : Bool)
        (seen0 : List String) (items : List FeedItem),
      (runCycleItems idOf dl en ⟨seen0, 0, []⟩ items).seen =
        (runCycleItems idOf dl' en' ⟨seen0, 0, []⟩ items).seen) ∧
    (∀ (idOf : FeedItem → String) (dl : FeedItem → Bool) (en : Bool)
        (seen0 : List String) (items : List FeedItem),
      ∀ a ∈ (runCycleItems idOf dl en ⟨seen0, 0, []⟩ items).attempts,
        a.1 ∈ (runCycleItems idOf dl en ⟨seen0, 0, []⟩ items).seen ∧ a.1 ∉ seen0) := by
  refine ⟨?_, ?_, ?_⟩
  · intro idOf dl dl' en en' st it
    by_cases hc : idOf it ∈ st.seen
    · simp [processItem, hc]
    · simp [processItem, hc]
  · intro idOf dl dl' en en' seen0 items
    exact runCycle_seen_indep idOf dl dl' en en' items _ _ rfl
  · intro idOf dl en seen0 items
    exact runCycle_attempts_mem idOf dl en seen0 items ⟨seen0, 0, []⟩
      (fun s hs => hs) (by simp)

/-- Witness for C10: a concrete cycle with a failing download for a fresh
record; the attempted id is in the final seen set and was not seen before. -/
theorem seen_added_before_download_witness :
    ("T-D" ∈ (runCycleItems webhookItemId (fun _ => false) true ⟨[], 0, []⟩
        [⟨"T", "a.pdf", "", "D"⟩]).seen) ∧ "T-D" ∉ ([] : List String) :=
  seen_added_before_download.2.2 webhookItemId (fun _ => false) true []
    [⟨"T", "a.pdf", "", "D"⟩] ("T-D", false) (by decide)

/-! ### Claim C8 — parser output shape and failure behaviour -/

/-- Helper for C8: membership after a Python-dict assignment. -/
theorem mem_upsert : ∀ (l : List (String × String)) (k v : String)
    (kv : String × String), kv ∈ upsert l k v → kv = (k, v) ∨ kv ∈ l := by
  intro l k v
  induction l with
  | nil =>
    intro kv h
    simp only [upsert, List.mem_singleton] at h
    exact Or.inl h
  | cons p rest ih =>
    intro kv h
    obtain ⟨k₀, v₀⟩ := p
    simp only [upsert] at h
    by_cases hk : k₀ = k
    · rw [if_pos hk] at h
      rcases List.mem_cons.mp h with h1 | h2
      · exact Or.inl h1
      · exact Or.inr (List.mem_cons_of_mem _ h2)
    · rw [if_neg hk] at h
      rcases List.mem_cons.mp h with h1 | h2
      · exact Or.inr (by simp [h1])
      · rcases ih kv h2 with h3 | h4
        · exact Or.inl h3
        · exact Or.inr (List.mem_cons_of_mem _ h4)

/-- Helper for C8: the field loop only ever stores whitelisted keys. -/
theorem extractFields_keys : ∀ (children : List XmlChild)
    (acc : List (String × String)),
    (∀ kv ∈ acc, kv.1 ∈ rssWhitelist) →
    ∀ kv ∈ extractFields children acc, kv.1 ∈ rssWhitelist := by
  intro children
  induction children with
  | nil =>
    intro acc hacc kv hkv
    exact hacc kv hkv
  | cons c rest ih =>
    intro acc hacc kv hkv
    simp only [extractFields] at hkv
    refine ih _ ?_ kv hkv
    intro kv' hkv'
    by_cases hc : rssWhitelist.contains c.tag = true
    · rw [if_pos hc] at hkv'
      rcases mem_upsert _ _ _ _ hkv' with h1 | h2
      · rw [h1]
        exact List.elem_iff.mp hc
      · exact hacc _ h2
    · rw [if_neg hc] at hkv'
      exact hacc _ hkv'

/-- Helper for C8: every record kept by the item loop has a non-empty title
and only whitelisted keys. -/
theorem parseItems_sound : ∀ (items : List (List XmlChild))
    (d : List (String × String)), d ∈ parseItems items →
    (∃ t, d.lookup "title" = some t ∧ t ≠ "") ∧ ∀ kv ∈ d, kv.1 ∈ rssWhitelist := by
  intro items
  induction items with
  | nil =>
    intro d hd
    simp [parseItems] at hd
  | cons ch rest ih =>
    intro d hd
    simp only [parseItems] at hd
    split at hd
    · rename_i t ht
      by_cases hne : t ≠ ""
      · rw [if_pos hne] at hd
        rcases List.mem_cons.mp hd with h1 | h2
        · subst h1
          exact ⟨⟨t, ht, hne⟩, extractFields_keys ch [] (by simp)⟩
        · exact ih d h2
      · rw [if_neg hne] at hd
        exact ih d hd
    · exact ih d hd

/-- Claim C8: on a structural parse failure `parse_rss_manually` returns the
empty sequence together with the reported error (never a partial result, and
the embedded function is total, so no uncaught exception); on success every
record in the output has a non-empty title (records missing a title are
discarded) and carries only the whitelisted fields title, link, description,
pubDate (stock_webhook.py:95-127, simple_nse_monitor.py:105-137). -/
theorem parse_failure_empty_and_whitelist :
    (∀ e, parseRssManually (.error e) = ([], some e)) ∧
    (∀ (items : List (List XmlChild)) (d : List (String × String)),
      d ∈ (parseRssManually (.ok items)).1 →
      (∃ t, d.lookup "title" = some t ∧ t ≠ "") ∧
        ∀ kv ∈ d, kv.1 ∈ rssWhitelist) :=
  ⟨fun _ => rfl, fun items d hd => parseItems_sound items d hd⟩

/-- Witness for C8: a concrete two-item feed in which the first item keeps
only whitelisted fields and the title-less second item is discarded. -/
theorem parse_failure_empty_and_whitelist_witness :
    (∃ t, (([("title", "ACME"), ("link", "a.pdf")] : List (String × String)).lookup
        "title" = some t ∧ t ≠ "")) ∧
    (∀ kv ∈ ([("title", "ACME"), ("link", "a.pdf")] : List (String × String)),
      kv.1 ∈ rssWhitelist) :=
  parse_failure_empty_and_whitelist.2
    [[⟨"title", "ACME"⟩, ⟨"link", "a.pdf"⟩, ⟨"guid", "g1"⟩], [⟨"link", "b.pdf"⟩]]
    [("title", "ACME"), ("link", "a.pdf")] (by decide)

/-! ### Claim C7 — the filename sanitizer -/

/-- Helper: `dropWhile` keeps a list whose head fails the predicate. -/
theorem dropWhile_head_neg (p : Char → Bool) (d : Char) (es : List Char)
    (hd : p d = false) : (d :: es).dropWhile p = d :: es := by
  simp [List.dropWhile_cons, hd]

/-- Helper: `dropWhile` distributes over an append whose right part it fixes. -/
theorem dropWhile_append_fix (p : Char → Bool) (b : List Char)
    (hb : b.dropWhile p = b) :
    ∀ a : List Char, (a ++ b).dropWhile p = a.dropWhile p ++ b := by
  intro a
  induction a with
  | nil => simpa using hb
  | cons x a' ih =>
    by_cases hx : p x = true
    · simp [List.dropWhile_cons, hx, ih]
    · have hx' : p x = false := Bool.eq_false_iff.mpr hx
      simp [List.dropWhile_cons, hx']

/-- Helper: underscore squeezing fixes a list without underscores. -/
theorem squeezeAux_all_keep : ∀ (flag : Bool) (l : List Char),
    (∀ c ∈ l, c ≠ '_') → squeezeAux flag l = l := by
  intro flag l
  induction l generalizing flag with
  | nil => intro _; rfl
  | cons x xs ih =>
    intro h
    have hx : x ≠ '_' := h x (by simp)
    simp [squeezeAux, hx, ih false (fun c hc => h c (by simp [hc]))]

/-- Helper: underscore squeezing preserves an underscore-free non-empty
suffix. -/
theorem squeezeAux_suffix (e : List Char) (he : e ≠ [])
    (hne : ∀ c ∈ e, c ≠ '_') :
    ∀ (a : List Char) (flag : Bool), ∃ zs, squeezeAux flag (a ++ e) = zs ++ e := by
  intro a
  induction a with
  | nil =>
    intro flag
    exact ⟨[], squeezeAux_all_keep flag e hne⟩
  | cons x a' ih =>
    intro flag
    by_cases hx : x = '_'
    · subst hx
      rcases ih true with ⟨zs, hzs⟩
      cases flag with
      | true => exact ⟨zs, by simp [squeezeAux, hzs]⟩
      | false => exact ⟨'_' :: zs, by simp [squeezeAux, hzs]⟩
    · rcases ih false with ⟨zs, hzs⟩
      exact ⟨x :: zs, by simp [squeezeAux, hx, hzs]⟩

/-- Helper: stripping underscores from both ends preserves an
underscore-free non-empty suffix. -/
theorem stripChars_us_suffix (e : List Char) (he : e ≠ [])
    (hne : ∀ c ∈ e, c ≠ '_') (zs : List Char) :
    stripChars isUnderscore (zs ++ e) = zs.dropWhile isUnderscore ++ e := by
  have hb : e.dropWhile isUnderscore = e := by
    cases e with
    | nil => rfl
    | cons d es =>
      have hd' : d ≠ '_' := hne d (by simp)
      exact dropWhile_head_neg _ d es (by simp [isUnderscore, hd'])
  have h1 : (zs ++ e).dropWhile isUnderscore = zs.dropWhile isUnderscore ++ e :=
    dropWhile_append_fix isUnderscore e hb zs
  unfold stripChars
  rw [h1, List.reverse_append]
  have h2 : (e.reverse ++ (zs.dropWhile isUnderscore).reverse).dropWhile isUnderscore =
      e.reverse ++ (zs.dropWhile isUnderscore).reverse := by
    cases her : e.reverse with
    | nil => exact absurd (by simpa using her) he
    | cons d es =>
      have hd : d ∈ e := by
        rw [← List.mem_reverse, her]
        simp
      have hd' : d ≠ '_' := hne d hd
      rw [List.cons_append]
      exact dropWhile_head_neg _ d _ (by simp [isUnderscore, hd'])
  rw [h2, List.reverse_append, List.reverse_reverse, List.reverse_reverse]

/-- Helper: steps 1-4 of the sanitizer keep the extension as a suffix. -/
theorem rawFilename_suffix (cc dc : List Char) (ext : String)
    (he : ext.toList ≠ []) (hne : ∀ c ∈ ext.toList, c ≠ '_') :
    ∃ zs, rawFilename cc dc ext = zs ++ ext.toList := by
  unfold rawFilename squeezeUnderscores
  have hassoc : cc ++ '_' :: (dc ++ ext.toList) = (cc ++ '_' :: dc) ++ ext.toList := by
    simp
  rw [hassoc]
  rcases squeezeAux_suffix ext.toList he hne (cc ++ '_' :: dc) false with ⟨zs, hzs⟩
  rw [hzs]
  exact ⟨zs.dropWhile isUnderscore, stripChars_us_suffix ext.toList he hne zs⟩

/-- Helper: the chosen extension is one of the two whitelisted ones. -/
theorem chooseExt_cases (u : String) : chooseExt u = ".pdf" ∨ chooseExt u = ".xml" := by
  unfold chooseExt
  split
  · exact Or.inl rfl
  · split
    · exact Or.inr rfl
    · exact Or.inl rfl

/-- Helper: basic facts about the chosen extension. -/
theorem chooseExt_facts (u : String) :
    (chooseExt u).toList ≠ [] ∧ (∀ c ∈ (chooseExt u).toList, c ≠ '_') ∧
      (∀ c ∈ (chooseExt u).toList, fileChar c = true) ∧
      (chooseExt u).toList.length = 4 := by
  rcases chooseExt_cases u with h | h <;> rw [h] <;>
    exact ⟨by decide, by decide, by decide, by decide⟩

/-- Helper: stripping from both ends only removes characters. -/
theorem mem_of_stripChars (p : Char → Bool) (l : List Char) :
    ∀ c ∈ stripChars p l, c ∈ l := by
  intro c hc
  unfold stripChars at hc
  rw [List.mem_reverse] at hc
  have h1 := (List.dropWhile_sublist p).mem hc
  rw [List.mem_reverse] at h1
  exact (List.dropWhile_sublist p).mem h1

/-- Helper: underscore squeezing produces underscores or original
characters. -/
theorem mem_squeezeAux : ∀ (flag : Bool) (l : List Char) (c : Char),
    c ∈ squeezeAux flag l → c = '_' ∨ c ∈ l := by
  intro flag l
  induction l generalizing flag with
  | nil => intro c hc; simp [squeezeAux] at hc
  | cons x xs ih =>
    intro c hc
    by_cases hx : x = '_'
    · subst hx
      cases flag with
      | true =>
        have heq : squeezeAux true ('_' :: xs) = squeezeAux true xs := rfl
        rw [heq] at hc
        rcases ih true c hc with h | h
        · exact Or.inl h
        · exact Or.inr (List.mem_cons_of_mem _ h)
      | false =>
        have heq : squeezeAux false ('_' :: xs) = '_' :: squeezeAux true xs := rfl
        rw [heq] at hc
        rcases List.mem_cons.mp hc with h | h
        · exact Or.inl h
        · rcases ih true c h with h2 | h2
          · exact Or.inl h2
          · exact Or.inr (List.mem_cons_of_mem _ h2)
    · have heq : squeezeAux flag (x :: xs) = x :: squeezeAux false xs := by
        conv_lhs => rw [squeezeAux]
        rw [if_neg hx]
      rw [heq] at hc
      rcases List.mem_cons.mp hc with h | h
      · exact Or.inr (by simp [h])
      · rcases ih false c h with h2 | h2
        · exact Or.inl h2
        · exact Or.inr (List.mem_cons_of_mem _ h2)

/-- Helper: whitespace collapsing produces underscores or original
non-whitespace characters. -/
theorem mem_collapseAux : ∀ (flag : Bool) (l : List Char) (c : Char),
    c ∈ collapseAux flag l → c = '_' ∨ (c ∈ l ∧ pySpace c = false) := by
  intro flag l
  induction l generalizing flag with
  | nil => intro c hc; simp [collapseAux] at hc
  | cons x xs ih =>
    intro c hc
    by_cases hx : pySpace x = true
    · cases flag with
      | true =>
        have heq : collapseAux true (x :: xs) = collapseAux true xs := by
          conv_lhs => rw [collapseAux]
          rw [if_pos hx, if_pos rfl]
        rw [heq] at hc
        rcases ih true c hc with h | ⟨h1, h2⟩
        · exact Or.inl h
        · exact Or.inr ⟨List.mem_cons_of_mem _ h1, h2⟩
      | false =>
        have heq : collapseAux false (x :: xs) = '_' :: collapseAux true xs := by
          conv_lhs => rw [collapseAux]
          rw [if_pos hx, if_neg (by simp)]
        rw [heq] at hc
        rcases List.mem_cons.mp hc with h | h
        · exact Or.inl h
        · rcases ih true c h with h2 | ⟨h3, h4⟩
          · exact Or.inl h2
          · exact Or.inr ⟨List.mem_cons_of_mem _ h3, h4⟩
    · have hx' : pySpace x = false := Bool.eq_false_iff.mpr hx
      have heq : collapseAux flag (x :: xs) = x :: collapseAux false xs := by
        conv_lhs => rw [collapseAux]
        rw [if_neg hx]
      rw [heq] at hc
      rcases List.mem_cons.mp hc with h | h
      · subst h
        exact Or.inr ⟨by simp, hx'⟩
      · rcases ih false c h with h2 | ⟨h3, h4⟩
        · exact Or.inl h2
        · exact Or.inr ⟨List.mem_cons_of_mem _ h3, h4⟩

/-- Helper: the cleaned company name uses only alphanumerics and
underscores. -/
theorem cleanCompany_chars (s : String) :
    ∀ c ∈ cleanCompany s, keepDateChar c = true := by
  intro c hc
  unfold cleanCompany collapseSpaces at hc
  rcases mem_collapseAux false _ c hc with h | ⟨hmem, hsp⟩
  · subst h; decide
  · have h2 := mem_of_stripChars pySpace _ c hmem
    have h3 := List.mem_filter.mp h2
    have h4 := h3.2
    simp [keepCompanyChar, hsp] at h4
    simp [keepDateChar, h4]

/-- Helper: the cleaned date uses only alphanumerics and underscores. -/
theorem cleanDate_chars (s : String) : ∀ c ∈ cleanDate s, keepDateChar c = true := by
  intro c hc
  exact (List.mem_filter.mp hc).2

/-- Helper: steps 1-4 of the sanitizer stay inside the safe alphabet. -/
theorem rawFilename_chars (cc dc : List Char) (ext : String)
    (hcc : ∀ c ∈ cc, keepDateChar c = true)
    (hdc : ∀ c ∈ dc, keepDateChar c = true)
    (hext : ∀ c ∈ ext.toList, fileChar c = true) :
    ∀ c ∈ rawFilename cc dc ext, fileChar c = true := by
  intro c hc
  unfold rawFilename squeezeUnderscores at hc
  have h1 := mem_of_stripChars isUnderscore _ c hc
  rcases mem_squeezeAux false _ c h1 with h | h2
  · subst h; decide
  · rcases List.mem_append.mp h2 with h3 | h4
    · simp [fileChar, hcc c h3]
    · rcases List.mem_cons.mp h4 with h5 | h6
      · subst h5; decide
      · rcases List.mem_append.mp h6 with h7 | h8
        · simp [fileChar, hdc c h7]
        · exact hext c h8

/-- Helper: the fallback step stays inside the safe alphabet. -/
theorem fallbackStep_chars (ext : String) (k : Clock)
    (hk2 : ∀ c ∈ k.ymdhms.toList, keepDateChar c = true)
    (hext : ∀ c ∈ ext.toList, fileChar c = true) (f1 : List Char)
    (h1 : ∀ c ∈ f1, fileChar c = true) :
    ∀ c ∈ fallbackStep f1 ext k, fileChar c = true := by
  intro c' hc'
  unfold fallbackStep at hc'
  split at hc'
  · rcases List.mem_append.mp hc' with h2 | h3
    · rcases List.mem_append.mp h2 with h4 | h5
      · have hlit : ∀ ch ∈ "NSE_Announcement_".toList, fileChar ch = true := by
          decide
        exact hlit c' h4
      · have := hk2 c' h5
        simp [fileChar, this]
    · exact hext c' h3
  · exact h1 c' hc'

/-- Helper: the truncation step stays inside the safe alphabet. -/
theorem truncateStep_chars (ext : String)
    (hext : ∀ c ∈ ext.toList, fileChar c = true) (f2 : List Char)
    (h2 : ∀ c ∈ f2, fileChar c = true) :
    ∀ c ∈ truncateStep f2 ext, fileChar c = true := by
  intro c' hc'
  unfold truncateStep at hc'
  split at hc'
  · rcases List.mem_append.mp hc' with h3 | h4
    · exact h2 c' ((List.take_sublist _ _).mem h3)
    · exact hext c' h4
  · exact h2 c' hc'

set_option maxHeartbeats 2000000 in
/-- Helper: the full sanitizer output stays inside the safe alphabet
(given well-formed timestamps). -/
theorem createSafeFilename_chars (c p u : String) (k : Clock) (hk : clockOk k) :
    ∀ ch ∈ (createSafeFilename c p u k).toList, fileChar ch = true := by
  have hdate : ∀ c' ∈ (if p = "" then k.dmyhms.toList else cleanDate p),
      keepDateChar c' = true := by
    by_cases hp : p = ""
    · rw [if_pos hp]
      exact hk.1
    · rw [if_neg hp]
      exact cleanDate_chars p
  exact truncateStep_chars (chooseExt u) (chooseExt_facts u).2.2.1 _
    (fallbackStep_chars (chooseExt u) k hk.2 (chooseExt_facts u).2.2.1 _
      (rawFilename_chars (cleanCompany c)
        (if p = "" then k.dmyhms.toList else cleanDate p) (chooseExt u)
        (cleanCompany_chars c) hdate (chooseExt_facts u).2.2.1))

/-- Helper: the fallback step preserves the extension suffix. -/
theorem fallbackStep_suffix (ext : String) (k : Clock) (f1 : List Char)
    (h : ∃ zs, f1 = zs ++ ext.toList) :
    ∃ ws, fallbackStep f1 ext k = ws ++ ext.toList := by
  unfold fallbackStep
  by_cases hcond : f1 = [] ∨ f1 = ext.toList ∨ f1.length < 5
  · rw [if_pos hcond]
    exact ⟨"NSE_Announcement_".toList ++ k.ymdhms.toList, by simp⟩
  · rw [if_neg hcond]
    exact h

/-- Helper: the truncation step preserves the extension suffix. -/
theorem truncateStep_suffix (ext : String) (f2 : List Char)
    (h : ∃ zs, f2 = zs ++ ext.toList) :
    ∃ ws, truncateStep f2 ext = ws ++ ext.toList := by
  unfold truncateStep
  by_cases hl : f2.length > 200
  · rw [if_pos hl]
    exact ⟨f2.take 190, rfl⟩
  · rw [if_neg hl]
    exact h

set_option maxHeartbeats 2000000 in
/-- Helper: the sanitizer output always ends in the chosen extension. -/
theorem createSafeFilename_ext (c p u : String) (k : Clock) :
    ∃ zs, (createSafeFilename c p u k).toList = zs ++ (chooseExt u).toList := by
  obtain ⟨hne, hnus, _, _⟩ := chooseExt_facts u
  exact truncateStep_suffix (chooseExt u) _
    (fallbackStep_suffix (chooseExt u) k _
      (rawFilename_suffix (cleanCompany c)
        (if p = "" then k.dmyhms.toList else cleanDate p) (chooseExt u) hne hnus))

/-- Helper: the truncation step caps the length at 200. -/
theorem truncateStep_le (ext : String) (h4 : ext.toList.length = 4)
    (f2 : List Char) : (truncateStep f2 ext).length ≤ 200 := by
  unfold truncateStep
  by_cases hl : f2.length > 200
  · rw [if_pos hl]
    rw [List.length_append, List.length_take, h4]
    have := Nat.min_le_left 190 f2.length
    omega
  · rw [if_neg hl]
    omega

/-- Helper: the sanitizer output is at most 200 characters. -/
theorem createSafeFilename_len (c p u : String) (k : Clock) :
    (createSafeFilename c p u k).length ≤ 200 :=
  truncateStep_le (chooseExt u) (chooseExt_facts u).2.2.2 _

/-- Helper: with a non-empty date and a cleaned name passing the validity
check, the output does not depend on the invocation time. -/
theorem createSafeFilename_clock_indep (c p u : String) (k k' : Clock)
    (hp : p ≠ "")
    (hcond : ¬(rawFilename (cleanCompany c) (cleanDate p) (chooseExt u) = [] ∨
      rawFilename (cleanCompany c) (cleanDate p) (chooseExt u) = (chooseExt u).toList ∨
      (rawFilename (cleanCompany c) (cleanDate p) (chooseExt u)).length < 5)) :
    createSafeFilename c p u k = createSafeFilename c p u k' := by
  unfold createSafeFilename
  rw [if_neg hp, if_neg hp]
  unfold fallbackStep
  rw [if_neg hcond, if_neg hcond]

/-- Claim C7 as amended: `create_safe_filename` is independent of the
invocation time for the fixed inputs of the claim, and in general whenever
publishedAt is non-empty and the cleaned `{company}_{date}` name passes the
length-≥-5 / non-bare-extension validity check (the counterexample shows a
non-empty publishedAt that still falls through to the timestamped fallback
name); for every input the output contains no path separator, ends in the
whitelisted extension chosen from the sourceURL suffix, and is at most 200
characters long (stock_webhook.py:129-177). -/
theorem sanitize_spec :
    (∀ k k' : Clock,
      createSafeFilename "EPL Limited" "08-Aug-2025 21:14:22" "x.pdf" k =
        createSafeFilename "EPL Limited" "08-Aug-2025 21:14:22" "x.pdf" k') ∧
    (∀ (c p u : String) (k k' : Clock), p ≠ "" →
      ¬(rawFilename (cleanCompany c) (cleanDate p) (chooseExt u) = [] ∨
        rawFilename (cleanCompany c) (cleanDate p) (chooseExt u) = (chooseExt u).toList ∨
        (rawFilename (cleanCompany c) (cleanDate p) (chooseExt u)).length < 5) →
      createSafeFilename c p u k = createSafeFilename c p u k') ∧
    (∀ (c p u : String) (k : Clock), clockOk k →
      ∀ ch ∈ (createSafeFilename c p u k).toList, ch ≠ '/' ∧ ch ≠ '\\') ∧
    (∀ (c p u : String) (k : Clock),
      ∃ zs, (createSafeFilename c p u k).toList = zs ++ (chooseExt u).toList) ∧
    (∀ (c p u : String) (k : Clock), (createSafeFilename c p u k).length ≤ 200) := by
  refine ⟨?_, ?_, ?_, createSafeFilename_ext, createSafeFilename_len⟩
  · intro k k'
    exact createSafeFilename_clock_indep "EPL Limited" "08-Aug-2025 21:14:22" "x.pdf"
      k k' (by decide) (by decide)
  · intro c p u k k' hp hcond
    exact createSafeFilename_clock_indep c p u k k' hp hcond
  · intro c p u k hk ch hch
    have hf := createSafeFilename_chars c p u k hk ch hch
    constructor <;> rintro rfl <;> exact absurd hf (by decide)

/-- Claim C7, counterexample: publishedAt `"-"` is non-empty, yet the cleaned
date is empty, the cleaned name collapses to the bare extension, and the
sanitizer substitutes the timestamped fallback name — so two calls at
different invocation times return different strings. -/
theorem sanitize_cex :
    ("-" : String) ≠ "" ∧
    createSafeFilename "" "-" "x.pdf" ⟨"x", "20250101_000000"⟩ ≠
      createSafeFilename "" "-" "x.pdf" ⟨"x", "20250102_000000"⟩ := by
  decide

/-- Witness for C7: the theorem applied at concrete inputs, including a
concrete well-formed clock. -/
theorem sanitize_spec_witness :
    createSafeFilename "EPL Limited" "08-Aug-2025 21:14:22" "x.pdf" ⟨"a", "b"⟩ =
      createSafeFilename "EPL Limited" "08-Aug-2025 21:14:22" "x.pdf" ⟨"c", "d"⟩ ∧
    (∀ ch ∈ (createSafeFilename "T" "D" "u.xml" ⟨"t1", "t2"⟩).toList,
      ch ≠ '/' ∧ ch ≠ '\\') ∧
    (∃ zs, (createSafeFilename "T" "D" "u.xml" ⟨"t1", "t2"⟩).toList =
      zs ++ (chooseExt "u.xml").toList) :=
  ⟨sanitize_spec.1 ⟨"a", "b"⟩ ⟨"c", "d"⟩,
   sanitize_spec.2.2.1 "T" "D" "u.xml" ⟨"t1", "t2"⟩ (by unfold clockOk; exact ⟨by decide, by decide⟩),
   sanitize_spec.2.2.2.1 "T" "D" "u.xml" ⟨"t1", "t2"⟩⟩

end Longrun
